import Mathlib

/-!
Verification of the host-side TI CC13xx/CC26xx bootloader driver.

Shallow embedding of the core of the crate:
* `firmware_image.rs` — Intel HEX records, segmentation, CRC32;
* `bootloader/commands.rs` — command packet serialization with length bounds;
* `bootloader/mod.rs` — the flashing / verification sequencer, modelled as the
  trace of commands it issues against an abstracted (responsive) device.

Machine integers are modelled as `Nat` with explicit `% 256` where the Rust
code performs `u8` wrapping arithmetic.  Fallible Rust functions returning
`Result` are modelled with `Except`; functions that can also `panic!` /
`assert!` are modelled with `RunResult`, which distinguishes a panic from a
returned error.
-/

namespace Cc13xx

/-- One bit-step of the reflected CRC-32 (IEEE 802.3) computation:
shift right one bit, conditionally xor the reflected polynomial 0xEDB88320. -/
def crcStepBit (c : Nat) : Nat :=
  if c % 2 = 1 then Nat.xor (c / 2) 0xEDB88320 else c / 2

/-- Absorb one input byte into the running CRC (reflected input). -/
def crcByte (c b : Nat) : Nat :=
  (List.range 8).foldl (fun acc _ => crcStepBit acc) (Nat.xor c (b % 256))

/-- CRC-32 as computed by `crc::crc32::checksum_ieee`: IEEE 802.3 polynomial,
reflected input/output, initial value 0xFFFFFFFF, final xor 0xFFFFFFFF. -/
def crc32_ieee (data : List Nat) : Nat :=
  Nat.xor (data.foldl crcByte 0xFFFFFFFF) 0xFFFFFFFF

/-- `Segment` from src/src/firmware_image.rs: a contiguous run of bytes with
its absolute start address and a stored CRC32 field. -/
structure Segment where
  start : Nat
  data : List Nat
  crc : Nat
deriving DecidableEq, Repr

/-- The Intel HEX `Record` variants of the `ihex` crate that
`FirmwareImage::from_records` matches on.  `startLinearAddress` stands for
the record types that fall into the `_ => assert!(false, ...)` arm. -/
inductive Record where
  | data (offset : Nat) (value : List Nat)
  | extendedSegmentAddress (val : Nat)
  | extendedLinearAddress (val : Nat)
  | endOfFile
  | startSegmentAddress
  | startLinearAddress
deriving DecidableEq, Repr

/-- `firmware_image::Error` (the variants reachable from `from_records`). -/
inductive ImgError where
  | endOfFileInMiddleOfFile
deriving DecidableEq, Repr

/-- Outcome of running a piece of Rust code that may return `Ok`, return an
`Err`, or abort via `panic!` / a failed `assert!` / `unwrap` on `None`. -/
inductive RunResult (ε α : Type) where
  | ok (val : α)
  | err (e : ε)
  | panicked
deriving DecidableEq, Repr

/-- The loop body of `FirmwareImage::from_records`, processing records in
file order (the Rust code pops from the end of an already-reversed vector,
which is exactly head-first processing of the file-order list).  State:
current extended address, current segment, EOF-seen flag, and the segments
pushed so far (in push order).  An empty record list models
`records.pop().unwrap()` panicking; the catch-all record arm models
`assert!(false, "Unhandled iHex record type!")`. -/
def fromRecordsLoop : List Record → Nat → Segment → Bool → List Segment →
    RunResult ImgError (List Segment)
  | [], _, _, _, _ => .panicked
  | r :: rest, extAddr, cur, hitEof, segs =>
    match r with
    | .data offset value =>
      if hitEof then .err .endOfFileInMiddleOfFile
      else
        let newLoc := Nat.lor offset extAddr
        if cur.start + cur.data.length ≠ newLoc then
          fromRecordsLoop rest extAddr ⟨newLoc, value, 0⟩ hitEof
            (segs ++ [{ cur with crc := crc32_ieee cur.data }])
        else
          fromRecordsLoop rest extAddr { cur with data := cur.data ++ value } hitEof segs
    | .extendedSegmentAddress v => fromRecordsLoop rest (v * 16) cur hitEof segs
    | .extendedLinearAddress v => fromRecordsLoop rest (v * 65536) cur hitEof segs
    | .endOfFile =>
      if hitEof then .ok (segs ++ [cur]).reverse
      else fromRecordsLoop rest extAddr cur true segs
    | .startSegmentAddress => fromRecordsLoop rest extAddr cur hitEof segs
    | .startLinearAddress => .panicked

/-- `FirmwareImage::from_records`: its `records` argument is consumed by
`pop()` from the back, so the processing order is the reverse of the
argument order. -/
def from_records (records : List Record) : RunResult ImgError (List Segment) :=
  fromRecordsLoop records.reverse 0 ⟨0, [], 0⟩ false []

/-- `FirmwareImage::new` at the record level: the parsed records (in file
order) are reversed before being handed to `from_records`. -/
def firmwareImageNew (records : List Record) : RunResult ImgError (List Segment) :=
  from_records records.reverse

theorem firmwareImageNew_eq (records : List Record) :
    firmwareImageNew records = fromRecordsLoop records 0 ⟨0, [], 0⟩ false [] := by
  simp [firmwareImageNew, from_records]

/-- The same loop as `fromRecordsLoop` but without the final
`segments.reverse()`: it returns the segments in the order they were pushed,
i.e. in the order their records appeared in the processed stream. -/
def fromRecordsLoopFileOrder : List Record → Nat → Segment → Bool → List Segment →
    RunResult ImgError (List Segment)
  | [], _, _, _, _ => .panicked
  | r :: rest, extAddr, cur, hitEof, segs =>
    match r with
    | .data offset value =>
      if hitEof then .err .endOfFileInMiddleOfFile
      else
        let newLoc := Nat.lor offset extAddr
        if cur.start + cur.data.length ≠ newLoc then
          fromRecordsLoopFileOrder rest extAddr ⟨newLoc, value, 0⟩ hitEof
            (segs ++ [{ cur with crc := crc32_ieee cur.data }])
        else
          fromRecordsLoopFileOrder rest extAddr { cur with data := cur.data ++ value } hitEof segs
    | .extendedSegmentAddress v => fromRecordsLoopFileOrder rest (v * 16) cur hitEof segs
    | .extendedLinearAddress v => fromRecordsLoopFileOrder rest (v * 65536) cur hitEof segs
    | .endOfFile =>
      if hitEof then .ok (segs ++ [cur])
      else fromRecordsLoopFileOrder rest extAddr cur true segs
    | .startSegmentAddress => fromRecordsLoopFileOrder rest extAddr cur hitEof segs
    | .startLinearAddress => .panicked

/-- Apply a pure function to the segment list of a successful run. -/
def mapSegments (f : List Segment → List Segment) :
    RunResult ImgError (List Segment) → RunResult ImgError (List Segment)
  | .ok l => .ok (f l)
  | .err e => .err e
  | .panicked => .panicked

theorem fromRecordsLoop_eq_reverse_fileOrder (rs : List Record) :
    ∀ extAddr cur hitEof segs,
      fromRecordsLoop rs extAddr cur hitEof segs =
        mapSegments List.reverse (fromRecordsLoopFileOrder rs extAddr cur hitEof segs) := by
  induction rs with
  | nil => intro extAddr cur hitEof segs; rfl
  | cons r rest ih =>
    intro extAddr cur hitEof segs
    cases r with
    | data offset value =>
      cases hitEof with
      | true => rfl
      | false =>
        simp only [fromRecordsLoop, fromRecordsLoopFileOrder, Bool.false_eq_true, if_false]
        by_cases h2 : cur.start + cur.data.length ≠ Nat.lor offset extAddr
        · rw [if_pos h2, if_pos h2]; exact ih _ _ _ _
        · rw [if_neg h2, if_neg h2]; exact ih _ _ _ _
    | extendedSegmentAddress v => exact ih _ _ _ _
    | extendedLinearAddress v => exact ih _ _ _ _
    | endOfFile =>
      cases hitEof with
      | true => rfl
      | false =>
        simp only [fromRecordsLoop, fromRecordsLoopFileOrder, Bool.false_eq_true, if_false]
        exact ih _ _ _ _
    | startSegmentAddress => exact ih _ _ _ _
    | startLinearAddress => rfl

/-- `commands::Error` (the variants not carrying an `io::Error` payload). -/
inductive CmdError where
  | maxPayloadExceeded
  | minPayloadNotMet
  | noAck
  | nack
  | badChecksum
  | badCmdByte
  | packetTooShort
  | invalidCmdStatus
  | invalidStatusCode
deriving DecidableEq, Repr

/-- The per-command compile-time constants of the `CommandDef` trait:
command byte, number of trailing idle (null) bytes, MIN_LEN and MAX_LEN
(total packet bytes including the 3-byte header, both `u8` in the source). -/
structure CommandDef where
  cmd : Nat
  nullBytes : Nat
  minLen : Nat
  maxLen : Nat
deriving DecidableEq, Repr

/-- `CommandDef::into_payload` as generated by the `command!` macro, applied
to the already-serialized field bytes: checks `len + 3` against
`[MIN_LEN, MAX_LEN]` and returns `None` for an empty payload. -/
def into_payload (c : CommandDef) (payload : List Nat) :
    Except CmdError (Option (List Nat)) :=
  if payload.length + 3 < c.minLen then .error .minPayloadNotMet
  else if payload.length + 3 > c.maxLen then .error .maxPayloadExceeded
  else if payload.length = 0 then .ok none
  else .ok (some payload)

/-- `Vec::resize(n, 0)`: truncate to `n` elements or pad with zeros. -/
def listResize (l : List Nat) (n : Nat) : List Nat :=
  if n ≤ l.length then l.take n else l ++ List.replicate (n - l.length) 0

/-- The checksum loop of `Command::serialize`: start from the command byte
(a `u8`) and add each payload byte with `u8` wrapping. -/
def checksumFold (cmd : Nat) (payload : List Nat) : Nat :=
  payload.foldl (fun acc b => (acc + b) % 256) (cmd % 256)

/-- `Command::serialize`: `[size, checksum, CMD] ++ payload`, resized to
`size + NULL_BYTES` (padding with zero bytes).  `size` is the `u8`
`BASE_PACKET_SIZE (3) + payload.len() as u8`. -/
def serializeCmd (c : CommandDef) (payload : List Nat) : Except CmdError (List Nat) :=
  match into_payload c payload with
  | .error e => .error e
  | .ok p =>
    let pl := p.getD []
    let size := (3 + pl.length % 256) % 256
    let checksum := checksumFold c.cmd pl
    .ok (listResize (size :: checksum :: c.cmd % 256 :: pl) (size + c.nullBytes))

/-- Big-endian serialization of a `u32` field (`write_u32::<BigEndian>`). -/
def be32 (v : Nat) : List Nat :=
  [v / 2 ^ 24 % 256, v / 2 ^ 16 % 256, v / 2 ^ 8 % 256, v % 256]

/-- Constants of the `command!` invocations in src/src/bootloader/commands.rs. -/
def PingDef : CommandDef := ⟨0x20, 36, 3, 3⟩

def DownloadDef : CommandDef := ⟨0x21, 24, 11, 11⟩

def GetStatusDef : CommandDef := ⟨0x23, 32, 3, 3⟩

def SendDataDef : CommandDef := ⟨0x24, 0, 4, 255⟩

def ResetDef : CommandDef := ⟨0x25, 32, 3, 3⟩

def SectorEraseDef : CommandDef := ⟨0x26, 0, 7, 7⟩

def Crc32Def : CommandDef := ⟨0x27, 0, 15, 15⟩

def GetChipIdDef : CommandDef := ⟨0x28, 42, 3, 3⟩

def BankEraseDef : CommandDef := ⟨0x2C, 0, 3, 3⟩

/-- `Crc32::new(address, size, rep).serialize()`: the payload is the three
big-endian `u32` fields in declaration order. -/
def crc32Serialize (address size rep : Nat) : Except CmdError (List Nat) :=
  serializeCmd Crc32Def (be32 address ++ be32 size ++ be32 rep)

/-- `SendData::new(data).serialize()`: the payload is the byte vector. -/
def sendDataSerialize (data : List Nat) : Except CmdError (List Nat) :=
  serializeCmd SendDataDef data

theorem checksumFold_eq (cmd : Nat) (payload : List Nat) :
    checksumFold cmd payload = (cmd + payload.sum) % 256 := by
  suffices h : ∀ a l, List.foldl (fun acc b => (acc + b) % 256) (a % 256) l = (a + l.sum) % 256 by
    exact h cmd payload
  intro a l
  induction l generalizing a with
  | nil => simp
  | cons b t ih =>
    simp only [List.foldl_cons, List.sum_cons]
    rw [Nat.mod_add_mod, ih (a + b), Nat.add_assoc]

/-- `MAX_PAYLOAD` of `Bootloader::write_segment`. -/
def MAX_PAYLOAD : Nat := 252

/-- The chunk sequence produced by the `split_off` loop of
`Bootloader::write_segment`, with an explicit fuel argument for structural
recursion; `data.length` fuel is always enough since every loop iteration
removes 252 bytes from a list longer than 252. -/
def chunksGo : Nat → List Nat → List (List Nat)
  | 0, d => [d]
  | fuel + 1, d =>
    if d.length ≤ MAX_PAYLOAD then [d]
    else d.take MAX_PAYLOAD :: chunksGo fuel (d.drop MAX_PAYLOAD)

/-- The chunks into which `write_segment` splits a segment's data: front
chunks of exactly 252 bytes, a final chunk with the remainder. -/
def chunks (d : List Nat) : List (List Nat) := chunksGo d.length d

/-- Commands issued to the device, as observed at the SPI boundary.
`initialize` abbreviates the Ping + GetChipId exchange and `bankErase` the
BankErase + GetStatus exchange of `erase_chip`; the commands the claims
quantify over (Download, SendData, Crc32 query, Reset, GetStatus) appear
individually. -/
inductive Action where
  | initCmd
  | bankErase
  | download (addr size : Nat)
  | sendData (chunk : List Nat)
  | getStatus
  | crcQuery (addr size : Nat)
  | reset
deriving DecidableEq, Repr

/-- Trace of `Bootloader::write_segment` against a responsive device (every
reply ACKed, status Success, matching CRC): Download, the SendData chunks,
GetStatus, the Crc32 readback, GetStatus.  For an empty segment the first
`write_payload` call fails SendData's MIN bound before anything beyond the
Download is sent, and `write_segment` returns `Err` (second component
`false`). -/
def write_segment_trace (s : Segment) : List Action × Bool :=
  if s.data.length = 0 then ([.download s.start 0], false)
  else
    (.download s.start s.data.length ::
        ((chunks s.data).map Action.sendData ++
          [.getStatus, .crcQuery s.start s.data.length, .getStatus]),
      true)

/-- The segment loop of `Bootloader::flash_firmware`: segments whose
`start & sram != 0` are skipped; a failing `write_segment` aborts the loop
(the `?` operator). -/
def flashLoop : List Segment → Nat → List Action × Bool
  | [], _ => ([.reset], true)
  | s :: rest, sram =>
    if Nat.land s.start sram = 0 then
      match write_segment_trace s with
      | (tr, true) =>
        let r := flashLoop rest sram
        (tr ++ r.1, r.2)
      | (tr, false) => (tr, false)
    else flashLoop rest sram

/-- Trace of `Bootloader::flash_firmware`: initialize, erase the whole bank,
write every non-RAM segment in image order, reset. -/
def flash_firmware (segs : List Segment) (sram : Nat) : List Action × Bool :=
  let r := flashLoop segs sram
  (.initCmd :: .bankErase :: r.1, r.2)

/-- The device as seen by `firmware_match`: what `get_crc` returns for a
given address and size (an `Err` models a failed exchange). -/
structure Device where
  crcAt : Nat → Nat → Except CmdError Nat

/-- The segment loop of `Bootloader::firmware_match`: query the CRC of every
non-RAM segment; on the first mismatch issue Reset and return `Ok(false)`;
if all match, issue Reset and return `Ok(true)`. -/
def firmwareMatchLoop (d : Device) : List Segment → Nat → List Action × Except CmdError Bool
  | [], _ => ([.reset], .ok true)
  | s :: rest, sram =>
    if Nat.land s.start sram = 0 then
      match d.crcAt s.start s.data.length with
      | .error e => ([.crcQuery s.start s.data.length], .error e)
      | .ok crc =>
        if crc = s.crc then
          let r := firmwareMatchLoop d rest sram
          (.crcQuery s.start s.data.length :: r.1, r.2)
        else ([.crcQuery s.start s.data.length, .reset], .ok false)
    else firmwareMatchLoop d rest sram

/-- Trace and result of `Bootloader::firmware_match`. -/
def firmware_match (d : Device) (segs : List Segment) (sram : Nat) :
    List Action × Except CmdError Bool :=
  let r := firmwareMatchLoop d segs sram
  (.initCmd :: r.1, r.2)

/-- `Cc131x::need_to_update_firmware`: negate a successful `firmware_match`,
propagate its error otherwise. -/
def need_to_update_firmware (d : Device) (segs : List Segment) (sram : Nat) :
    Except CmdError Bool :=
  match (firmware_match d segs sram).2 with
  | .error e => .error e
  | .ok b => .ok (!b)

/-- `CC1310_CHIP_ID` from `Bootloader::initialize`. -/
def CC1310_CHIP_ID : Nat := 0x20028000

/-- The tail of `Bootloader::initialize` runs
`assert_eq!(chip_id.value, CC1310_CHIP_ID)`: a mismatching chip id makes the
process panic instead of returning an `Err`. -/
def chipIdAssert (chipId : Nat) : RunResult CmdError Unit :=
  if chipId = CC1310_CHIP_ID then .ok () else .panicked

/-- `commands::StatusValue`. -/
inductive StatusValue where
  | default
  | success
  | unknownCmd
  | invalidCmd
  | invalidAddr
  | flashFail
deriving DecidableEq, Repr

/-- The `assert_eq!(status, StatusValue::Success, ...)` checks of
`erase_sector`, `erase_chip` and `write_segment`: a non-Success status
panics instead of returning an `Err`. -/
def statusAssert (s : StatusValue) : RunResult CmdError Unit :=
  if s = .success then .ok () else .panicked

/-- The `assert_eq!(segment.crc, crc_read)` check of `write_segment`: a CRC
mismatch panics instead of returning an `Err`. -/
def crcAssert (stored device : Nat) : RunResult CmdError Unit :=
  if stored = device then .ok () else .panicked

/-- The payloads of the SendData commands of a trace, in order. -/
def sentChunks (tr : List Action) : List (List Nat) :=
  tr.filterMap fun a =>
    match a with
    | .sendData c => some c
    | _ => none

/-- The (address, size) pairs of the Download commands of a trace, in order. -/
def downloadsOf (tr : List Action) : List (Nat × Nat) :=
  tr.filterMap fun a =>
    match a with
    | .download x n => some (x, n)
    | _ => none

/-- The Crc32 queries `firmware_match` issues for a list of segments when
every queried CRC matches: one per non-RAM segment, in order. -/
def queriesOf (p : List Segment) (sram : Nat) : List Action :=
  (p.filter fun t => Nat.land t.start sram == 0).map fun t =>
    .crcQuery t.start t.data.length

theorem listResize_append (l : List Nat) (k : Nat) :
    listResize l (l.length + k) = l ++ List.replicate k 0 := by
  unfold listResize
  rcases Nat.eq_zero_or_pos k with hk | hk
  · subst hk; simp
  · rw [if_neg (by omega), Nat.add_sub_cancel_left]

theorem serializeCmd_ok (c : CommandDef) (p : List Nat)
    (hMax : c.maxLen ≤ 255) (hMin : c.minLen ≤ p.length + 3)
    (hLen : p.length + 3 ≤ c.maxLen) :
    serializeCmd c p =
      .ok ((3 + p.length) :: (c.cmd + p.sum) % 256 :: c.cmd % 256 ::
        (p ++ List.replicate c.nullBytes 0)) := by
  have hplen : p.length ≤ 252 := by omega
  have hmod : p.length % 256 = p.length := Nat.mod_eq_of_lt (by omega)
  have hsize : (3 + p.length % 256) % 256 = 3 + p.length := by
    rw [hmod]; exact Nat.mod_eq_of_lt (by omega)
  have hip : into_payload c p = .ok (if p.length = 0 then none else some p) := by
    unfold into_payload
    rw [if_neg (by omega), if_neg (by omega)]
    by_cases hp : p.length = 0
    · rw [if_pos hp, if_pos hp]
    · rw [if_neg hp, if_neg hp]
  unfold serializeCmd
  rw [hip]
  by_cases hp : p.length = 0
  · have hpnil : p = [] := List.length_eq_zero.mp hp
    subst hpnil
    rw [if_pos (show ([] : List Nat).length = 0 from rfl)]
    simp only [Option.getD_none, List.length_nil, Nat.zero_mod, Nat.add_zero]
    rw [checksumFold_eq]
    have h3 : (3 % 256 : Nat) + c.nullBytes =
        [((3 : Nat) % 256), (c.cmd + List.sum []) % 256, c.cmd % 256].length + c.nullBytes := by
      simp
    rw [h3, listResize_append]
    norm_num
  · rw [if_neg hp]
    simp only [Option.getD_some]
    rw [checksumFold_eq, hsize]
    have h3 : 3 + p.length + c.nullBytes =
        ((3 + p.length) :: (c.cmd + p.sum) % 256 :: c.cmd % 256 :: p).length + c.nullBytes := by
      simp only [List.length_cons]
      omega
    rw [h3, listResize_append]
    simp

theorem chunksGo_ne_nil (fuel : Nat) (d : List Nat) : chunksGo fuel d ≠ [] := by
  cases fuel with
  | zero => simp [chunksGo]
  | succ n =>
    unfold chunksGo
    split <;> simp

theorem chunksGo_flatten (fuel : Nat) :
    ∀ d : List Nat, (chunksGo fuel d).flatten = d := by
  induction fuel with
  | zero => intro d; simp [chunksGo]
  | succ n ih =>
    intro d
    unfold chunksGo
    split
    · simp
    · simp only [List.flatten_cons, ih (d.drop MAX_PAYLOAD)]
      exact List.take_append_drop MAX_PAYLOAD d

theorem chunksGo_length_le (fuel : Nat) :
    ∀ d : List Nat, d.length ≤ fuel + MAX_PAYLOAD →
      ∀ c ∈ chunksGo fuel d, c.length ≤ MAX_PAYLOAD := by
  induction fuel with
  | zero =>
    intro d hd c hc
    simp only [chunksGo, List.mem_singleton] at hc
    subst hc
    simpa using hd
  | succ n ih =>
    intro d hd c hc
    unfold chunksGo at hc
    by_cases hlen : d.length ≤ MAX_PAYLOAD
    · rw [if_pos hlen] at hc
      simp only [List.mem_singleton] at hc
      subst hc
      exact hlen
    · rw [if_neg hlen] at hc
      rcases List.mem_cons.mp hc with hc | hc
      · subst hc
        simp [List.length_take]
      · refine ih (d.drop MAX_PAYLOAD) ?_ c hc
        have hMP : MAX_PAYLOAD = 252 := rfl
        simp only [List.length_drop]
        omega

theorem chunksGo_dropLast (fuel : Nat) :
    ∀ d : List Nat, ∀ c ∈ (chunksGo fuel d).dropLast, c.length = MAX_PAYLOAD := by
  induction fuel with
  | zero => intro d c hc; simp [chunksGo] at hc
  | succ n ih =>
    intro d c hc
    unfold chunksGo at hc
    by_cases hlen : d.length ≤ MAX_PAYLOAD
    · rw [if_pos hlen] at hc
      simp at hc
    · rw [if_neg hlen] at hc
      rw [List.dropLast_cons_of_ne_nil (chunksGo_ne_nil n (d.drop MAX_PAYLOAD))] at hc
      rcases List.mem_cons.mp hc with hc | hc
      · subst hc
        simp only [List.length_take]
        omega
      · exact ih (d.drop MAX_PAYLOAD) c hc

theorem chunks_flatten (d : List Nat) : (chunks d).flatten = d :=
  chunksGo_flatten d.length d

theorem chunks_length_le (d : List Nat) : ∀ c ∈ chunks d, c.length ≤ MAX_PAYLOAD :=
  chunksGo_length_le d.length d (by omega)

theorem chunks_dropLast (d : List Nat) :
    ∀ c ∈ (chunks d).dropLast, c.length = MAX_PAYLOAD :=
  chunksGo_dropLast d.length d

theorem sentChunks_write_segment (s : Segment) (h : s.data ≠ []) :
    sentChunks (write_segment_trace s).1 = chunks s.data := by
  have hlen : s.data.length ≠ 0 := by simpa using h
  unfold write_segment_trace
  rw [if_neg hlen]
  simp only [sentChunks, List.filterMap_cons, List.filterMap_append, List.filterMap_map]
  have hsome :
      ((fun a =>
          match a with
          | Action.sendData c => some c
          | _ => none) ∘ Action.sendData) = some := by
    funext c
    rfl
  rw [hsome, List.filterMap_some]
  simp


set_option maxRecDepth 4000 in
theorem c4_concrete_505 :
    (chunks (List.replicate 505 0)).map List.length = [252, 252, 1] := by
  decide

/-- C1: the claim says every segment of a parsed image satisfies
`crc == crc32_ieee(data)`, in particular the last segment, closed by the
end-of-file record.  The code computes the CRC only when a segment is closed
by a non-contiguous data record; the `EndOfFile` arm pushes the final
segment with its `crc` field still 0.  On the one-record image below the
only (hence last) segment comes out with `crc = 0` although the CRC of its
data is 0xA505DF1B. -/
theorem c1_last_segment_crc_unset :
    firmwareImageNew [.data 0 [1], .endOfFile, .endOfFile] =
      .ok [⟨0, [1], 0⟩] ∧
    crc32_ieee [1] = 0xA505DF1B ∧ (0 : Nat) ≠ 0xA505DF1B := by
  refine ⟨by decide, by decide, by decide⟩

/-- C10: the claim says every segment of a parsed image has `data.length ≥ 1`
even when the first data record sits at a non-zero absolute address.  In the
code the initial accumulator segment `{start: 0, data: [], crc: 0}` is
pushed as soon as the first data record is non-contiguous with address 0,
yielding a zero-length segment. -/
theorem c10_empty_initial_segment :
    firmwareImageNew [.data 16 [0xAB], .endOfFile, .endOfFile] =
      .ok [⟨16, [0xAB], 0⟩, ⟨0, [], 0⟩] ∧
    (Segment.mk 0 [] 0).data.length = 0 := by
  refine ⟨by decide, rfl⟩

/-- C7 counterexample: two data records at addresses 0 and 16 (file order
[0, 16]) parse to a segment list whose starts are [16, 0] — the reverse of
the order in which the records appeared, refuting the claim. -/
theorem c7_counterexample :
    firmwareImageNew [.data 0 [1], .data 16 [2], .endOfFile, .endOfFile] =
      .ok [⟨16, [2], 0⟩, ⟨0, [1], 0xA505DF1B⟩] ∧
    [Segment.mk 16 [2] 0, Segment.mk 0 [1] 0xA505DF1B].map Segment.start = [16, 0] ∧
    ([16, 0] : List Nat) ≠ [0, 16] := by
  refine ⟨by decide, by decide, by decide⟩

/-- C7 amended: the segment list of `FirmwareImage::new` is the REVERSE of
the order in which the segments' records appeared in the file
(`segments.reverse()` runs before returning, so popping from the back of
the list yields file order).  The first conjunct relates the parser to the
same loop without the final reversal, whose accumulator extends at the tail
in encounter order; the second shows the un-reversed loop on the
counterexample input yields the file order [0, 16]. -/
theorem c7_segments_reverse_file_order :
    (∀ records : List Record,
      firmwareImageNew records =
        mapSegments List.reverse
          (fromRecordsLoopFileOrder records 0 ⟨0, [], 0⟩ false [])) ∧
    fromRecordsLoopFileOrder [.data 0 [1], .data 16 [2], .endOfFile, .endOfFile]
        0 ⟨0, [], 0⟩ false [] =
      .ok [⟨0, [1], 0xA505DF1B⟩, ⟨16, [2], 0⟩] := by
  constructor
  · intro records
    rw [firmwareImageNew_eq]
    exact fromRecordsLoop_eq_reverse_fileOrder records 0 ⟨0, [], 0⟩ false []
  · decide

/-- C3: a serialized command is `[len, checksum, CMD, payload...]` followed
by exactly NULL_BYTES trailing zeros, with `len = 3 + |payload|` and
`checksum = (CMD + Σ payload) mod 256`; for a fixed-size command the total
length is `MIN_LEN + NULL_BYTES`; and `Crc32::new(0x3030, 0xABAB, 0)`
serializes to the packet of the source's own serializer test. -/
theorem c3_serialize_packet_format (c : CommandDef) (p : List Nat)
    (hCmd : c.cmd < 256) (hMax : c.maxLen ≤ 255)
    (hMin : c.minLen ≤ p.length + 3) (hLen : p.length + 3 ≤ c.maxLen) :
    serializeCmd c p =
      .ok ((3 + p.length) :: (c.cmd + p.sum) % 256 :: c.cmd ::
        (p ++ List.replicate c.nullBytes 0)) ∧
    (c.minLen = c.maxLen →
      ∀ out, serializeCmd c p = .ok out → out.length = c.minLen + c.nullBytes) ∧
    crc32Serialize 0x3030 0xABAB 0 =
      .ok [0x0F, 0xDD, 0x27, 0x00, 0x00, 0x30, 0x30, 0x00, 0x00, 0xAB, 0xAB,
        0x00, 0x00, 0x00, 0x00] := by
  have hok := serializeCmd_ok c p hMax hMin hLen
  rw [Nat.mod_eq_of_lt hCmd] at hok
  refine ⟨hok, ?_, rfl⟩
  intro hfix out hout
  rw [hok] at hout
  cases hout
  simp only [List.length_cons, List.length_append, List.length_replicate]
  omega

/-- Witness for C3 at the concrete Crc32 command of the source's test. -/
theorem c3_witness :
    crc32Serialize 0x3030 0xABAB 0 =
      .ok [0x0F, 0xDD, 0x27, 0x00, 0x00, 0x30, 0x30, 0x00, 0x00, 0xAB, 0xAB,
        0x00, 0x00, 0x00, 0x00] :=
  (c3_serialize_packet_format Crc32Def (be32 0x3030 ++ be32 0xABAB ++ be32 0)
    (by decide) (by decide) (by decide) (by decide)).2.2

/-- C6: `SendData::new(data).serialize()` fails with MinPayloadNotMet for an
empty payload, with MaxPayloadExceeded from 253 bytes on, and succeeds for
every length from 1 to 252. -/
theorem c6_senddata_bounds :
    (∀ data : List Nat, data.length = 0 →
      sendDataSerialize data = .error .minPayloadNotMet) ∧
    (∀ data : List Nat, 253 ≤ data.length →
      sendDataSerialize data = .error .maxPayloadExceeded) ∧
    (∀ data : List Nat, 1 ≤ data.length → data.length ≤ 252 →
      ∃ out, sendDataSerialize data = .ok out) := by
  have hmin : SendDataDef.minLen = 4 := rfl
  have hmax : SendDataDef.maxLen = 255 := rfl
  refine ⟨?_, ?_, ?_⟩
  · intro data hd
    unfold sendDataSerialize serializeCmd into_payload
    rw [if_pos (by omega)]
  · intro data hd
    unfold sendDataSerialize serializeCmd into_payload
    rw [if_neg (by omega), if_pos (by omega)]
  · intro data h1 h2
    exact ⟨_, serializeCmd_ok SendDataDef data (by decide) (by omega) (by omega)⟩

/-- Witness for C6 at lengths 0, 253 and 1. -/
theorem c6_witness :
    sendDataSerialize [] = .error .minPayloadNotMet ∧
    sendDataSerialize (List.replicate 253 0) = .error .maxPayloadExceeded ∧
    ∃ out, sendDataSerialize [7] = .ok out :=
  ⟨c6_senddata_bounds.1 [] (by decide),
   c6_senddata_bounds.2.1 (List.replicate 253 0) (by rw [List.length_replicate]),
   c6_senddata_bounds.2.2 [7] (by decide) (by decide)⟩

/-- C8 counterexample: for `SendData::new([0])` the first serialized byte is
4 = 3 + |payload|, not MIN_LEN + |payload| = 4 + 1 = 5, refuting the claim
for any command whose MIN_LEN is not 3. -/
theorem c8_counterexample :
    sendDataSerialize [0] = .ok [4, 0x24, 0x24, 0] ∧
    (4 : Nat) ≠ SendDataDef.minLen + [(0 : Nat)].length := by
  refine ⟨rfl, by decide⟩

/-- C8 amended: the first byte of a successful serialization is
`BASE_PACKET_SIZE + |payload| = 3 + |payload|` (which coincides with
`MIN_LEN + |payload|` only for empty-payload commands, where MIN_LEN = 3). -/
theorem c8_first_byte (c : CommandDef) (p : List Nat)
    (hMax : c.maxLen ≤ 255)
    (hMin : c.minLen ≤ p.length + 3) (hLen : p.length + 3 ≤ c.maxLen) :
    ∀ out, serializeCmd c p = .ok out → out.head? = some (3 + p.length) := by
  intro out hout
  have hok := serializeCmd_ok c p hMax hMin hLen
  rw [hok] at hout
  cases hout
  rfl

/-- Witness for C8 at `SendData::new([0])`, whose serialization is
`[4, 0x24, 0x24, 0x00]`. -/
theorem c8_witness : ([4, 0x24, 0x24, 0] : List Nat).head? = some 4 :=
  c8_first_byte SendDataDef [0] (by decide) (by decide) (by decide) [4, 0x24, 0x24, 0] rfl

/-- C4: `write_segment` sends exactly the chunk decomposition of the
segment's data: consecutive chunks of at most 252 bytes whose concatenation
is the data, all chunks but the last exactly 252 bytes; a 505-byte segment
yields chunk sizes [252, 252, 1]. -/
theorem c4_write_segment_chunking (s : Segment) (h : s.data ≠ []) :
    sentChunks (write_segment_trace s).1 = chunks s.data ∧
    (chunks s.data).flatten = s.data ∧
    (∀ c ∈ chunks s.data, c.length ≤ 252) ∧
    (∀ c ∈ (chunks s.data).dropLast, c.length = 252) ∧
    (chunks (List.replicate 505 0)).map List.length = [252, 252, 1] := by
  refine ⟨sentChunks_write_segment s h, chunks_flatten s.data,
    chunks_length_le s.data, chunks_dropLast s.data, c4_concrete_505⟩

/-- Witness for C4 at a concrete 3-byte segment. -/
theorem c4_witness :
    sentChunks (write_segment_trace ⟨0, [1, 2, 3], 0⟩).1 = chunks [1, 2, 3] ∧
    (chunks [1, 2, 3]).flatten = [1, 2, 3] :=
  ⟨(c4_write_segment_chunking ⟨0, [1, 2, 3], 0⟩ (by decide)).1,
   (c4_write_segment_chunking ⟨0, [1, 2, 3], 0⟩ (by decide)).2.1⟩


theorem downloadsOf_append (t1 t2 : List Action) :
    downloadsOf (t1 ++ t2) = downloadsOf t1 ++ downloadsOf t2 := by
  simp [downloadsOf]

theorem downloadsOf_write_segment (s : Segment) :
    downloadsOf (write_segment_trace s).1 = [(s.start, s.data.length)] := by
  unfold write_segment_trace
  by_cases h : s.data.length = 0
  · rw [if_pos h, h]
    rfl
  · rw [if_neg h]
    simp only [downloadsOf, List.filterMap_cons, List.filterMap_append, List.filterMap_map]
    have hnone :
        ((fun a =>
            match a with
            | Action.download x n => some (x, n)
            | _ => none) ∘ Action.sendData) = fun _ => none := by
      funext c
      rfl
    rw [hnone]
    simp

theorem downloadsOf_mem (tr : List Action) (x n : Nat) :
    Action.download x n ∈ tr ↔ (x, n) ∈ downloadsOf tr := by
  unfold downloadsOf
  rw [List.mem_filterMap]
  constructor
  · intro h
    exact ⟨_, h, rfl⟩
  · rintro ⟨a, ha, hfa⟩
    cases a with
    | download x2 n2 =>
      simp only [Option.some.injEq, Prod.mk.injEq] at hfa
      obtain ⟨rfl, rfl⟩ := hfa
      exact ha
    | initCmd => simp at hfa
    | bankErase => simp at hfa
    | sendData c => simp at hfa
    | getStatus => simp at hfa
    | crcQuery u w => simp at hfa
    | reset => simp at hfa

theorem flashLoop_trace (segs : List Segment) (sram : Nat)
    (h : ∀ s ∈ segs, Nat.land s.start sram = 0 → s.data ≠ []) :
    flashLoop segs sram =
      (((segs.filter fun s => Nat.land s.start sram == 0).map
          fun s => (write_segment_trace s).1).flatten ++ [.reset], true) := by
  induction segs with
  | nil => simp [flashLoop]
  | cons s rest ih =>
    have hrest : ∀ t ∈ rest, Nat.land t.start sram = 0 → t.data ≠ [] := by
      intro t ht
      exact h t (List.mem_cons_of_mem s ht)
    by_cases hl : Nat.land s.start sram = 0
    · have hne : s.data.length ≠ 0 := by
        simpa using h s (List.mem_cons_self s rest) hl
      have hw : write_segment_trace s =
          (.download s.start s.data.length ::
            ((chunks s.data).map Action.sendData ++
              [.getStatus, .crcQuery s.start s.data.length, .getStatus]), true) := by
        unfold write_segment_trace
        rw [if_neg hne]
      unfold flashLoop
      rw [if_pos hl, hw, ih hrest]
      rw [List.filter_cons_of_pos (by simpa using hl), List.map_cons, List.flatten_cons, hw]
      simp
    · unfold flashLoop
      rw [if_neg hl, ih hrest, List.filter_cons_of_neg (by simpa using hl)]

theorem downloadsOf_flatten_wst (l : List Segment) :
    downloadsOf ((l.map fun s => (write_segment_trace s).1).flatten) =
      l.map fun s => (s.start, s.data.length) := by
  induction l with
  | nil => rfl
  | cons s t ih =>
    rw [List.map_cons, List.flatten_cons, downloadsOf_append, ih,
      downloadsOf_write_segment, List.map_cons]
    rfl

/-- C2: during `flash_firmware` with RAM mask `sram`, the Download commands
issued are exactly one per segment with `start & sram == 0`, in image order
(first conjunct), no Download is ever issued at the start address of a RAM
segment (second conjunct), and the full trace is Initialize, BankErase, the
write traces of the non-RAM segments in order, Reset (third conjunct).  The
hypothesis that non-RAM segments are non-empty is the data-model invariant
of parsed images (`data.length ≥ 1`). -/
theorem c2_flash_skips_ram (segs : List Segment) (sram : Nat)
    (h : ∀ s ∈ segs, Nat.land s.start sram = 0 → s.data ≠ []) :
    downloadsOf (flash_firmware segs sram).1 =
      (segs.filter fun s => Nat.land s.start sram == 0).map
        (fun s => (s.start, s.data.length)) ∧
    (∀ s ∈ segs, Nat.land s.start sram ≠ 0 →
      ∀ n, Action.download s.start n ∉ (flash_firmware segs sram).1) ∧
    (flash_firmware segs sram).1 =
      .initCmd :: .bankErase ::
        (((segs.filter fun s => Nat.land s.start sram == 0).map
            fun s => (write_segment_trace s).1).flatten ++ [.reset]) := by
  have htr : (flash_firmware segs sram).1 =
      .initCmd :: .bankErase ::
        (((segs.filter fun s => Nat.land s.start sram == 0).map
            fun s => (write_segment_trace s).1).flatten ++ [.reset]) := by
    unfold flash_firmware
    rw [flashLoop_trace segs sram h]
  have hdl : downloadsOf (flash_firmware segs sram).1 =
      (segs.filter fun s => Nat.land s.start sram == 0).map
        (fun s => (s.start, s.data.length)) := by
    rw [htr]
    show downloadsOf (Action.initCmd :: Action.bankErase :: _) = _
    unfold downloadsOf
    rw [List.filterMap_cons, List.filterMap_cons]
    show downloadsOf (_ ++ [Action.reset]) = _
    rw [downloadsOf_append, downloadsOf_flatten_wst]
    simp [downloadsOf]
  refine ⟨hdl, ?_, htr⟩
  intro s hs hl n hmem
  have hpair : (s.start, n) ∈ downloadsOf (flash_firmware segs sram).1 :=
    (downloadsOf_mem _ s.start n).mp hmem
  rw [hdl] at hpair
  obtain ⟨t, htf, hteq⟩ := List.mem_map.mp hpair
  have htl : Nat.land t.start sram = 0 := by
    have := List.of_mem_filter htf
    simpa using this
  have : t.start = s.start := congrArg Prod.fst hteq
  rw [this] at htl
  exact hl htl

/-- Witness for C2: a two-segment image, one flash segment at 0x1000 and one
RAM segment at 0x20000000, flashed with mask 0x20000000: only the flash
segment is downloaded. -/
theorem c2_witness :
    downloadsOf (flash_firmware [⟨4096, [1], 0⟩, ⟨0x20000000, [2], 0⟩] 0x20000000).1 =
      [(4096, 1)] := by
  have h := (c2_flash_skips_ram [⟨4096, [1], 0⟩, ⟨0x20000000, [2], 0⟩] 0x20000000
    (by
      intro s hs hl
      rcases List.mem_cons.mp hs with rfl | hs
      · simp
      · rcases List.mem_cons.mp hs with rfl | hs
        · exact absurd hl (by decide)
        · simp at hs)).1
  rw [h]
  decide

theorem firmwareMatchLoop_mismatch (d : Device) (sram : Nat) (s : Segment)
    (v : Nat) (hs : Nat.land s.start sram = 0)
    (hv : d.crcAt s.start s.data.length = .ok v) (hne : v ≠ s.crc) :
    ∀ p rest : List Segment,
      (∀ t ∈ p, Nat.land t.start sram ≠ 0 ∨ d.crcAt t.start t.data.length = .ok t.crc) →
      firmwareMatchLoop d (p ++ s :: rest) sram =
        (queriesOf p sram ++ [.crcQuery s.start s.data.length, .reset], .ok false) := by
  intro p
  induction p with
  | nil =>
    intro rest hp
    show firmwareMatchLoop d (s :: rest) sram = _
    unfold firmwareMatchLoop
    rw [if_pos hs, hv]
    simp [queriesOf, hne]
  | cons t p2 ih =>
    intro rest hp
    have hp2 : ∀ u ∈ p2, Nat.land u.start sram ≠ 0 ∨
        d.crcAt u.start u.data.length = .ok u.crc := by
      intro u hu
      exact hp u (List.mem_cons_of_mem t hu)
    by_cases hl : Nat.land t.start sram = 0
    · have hcrc : d.crcAt t.start t.data.length = .ok t.crc := by
        rcases hp t (List.mem_cons_self t p2) with hbad | hgood
        · exact absurd hl hbad
        · exact hgood
      have hrec := ih rest hp2
      show firmwareMatchLoop d (t :: (p2 ++ s :: rest)) sram = _
      unfold firmwareMatchLoop
      rw [if_pos hl, hcrc]
      simp [hrec, queriesOf, hl]
    · show firmwareMatchLoop d (t :: (p2 ++ s :: rest)) sram = _
      unfold firmwareMatchLoop
      rw [if_neg hl, ih rest hp2]
      simp [queriesOf, hl]

/-- C5: if `firmware_match` reaches a non-RAM segment whose stored CRC
differs from the CRC the device reports (all earlier segments being either
RAM or matching), it issues a Reset right after that segment's single CRC
query, queries nothing for any later segment (the trace does not depend on
`rest`), and returns `Ok(false)` — a normal return, not an error — so
`need_to_update_firmware` returns `Ok(true)`. -/
theorem c5_firmware_match_mismatch (d : Device) (p : List Segment) (s : Segment)
    (rest : List Segment) (sram : Nat) (v : Nat)
    (hp : ∀ t ∈ p, Nat.land t.start sram ≠ 0 ∨ d.crcAt t.start t.data.length = .ok t.crc)
    (hs : Nat.land s.start sram = 0)
    (hv : d.crcAt s.start s.data.length = .ok v)
    (hne : v ≠ s.crc) :
    firmware_match d (p ++ s :: rest) sram =
      (.initCmd :: (queriesOf p sram ++ [.crcQuery s.start s.data.length, .reset]),
        .ok false) ∧
    need_to_update_firmware d (p ++ s :: rest) sram = .ok true := by
  have hloop := firmwareMatchLoop_mismatch d sram s v hs hv hne p rest hp
  constructor
  · unfold firmware_match
    rw [hloop]
  · unfold need_to_update_firmware firmware_match
    rw [hloop]
    rfl

/-- Witness for C5: a device reporting CRC 5 against a first segment whose
stored CRC is 3: mismatch, Reset issued, second segment never queried,
`need_to_update_firmware` is `Ok(true)`. -/
theorem c5_witness :
    firmware_match ⟨fun _ _ => .ok 5⟩ [⟨8, [1], 3⟩, ⟨9, [2], 7⟩] 0 =
      ([.initCmd, .crcQuery 8 1, .reset], .ok false) ∧
    need_to_update_firmware ⟨fun _ _ => .ok 5⟩ [⟨8, [1], 3⟩, ⟨9, [2], 7⟩] 0 = .ok true := by
  have h := c5_firmware_match_mismatch ⟨fun _ _ => .ok 5⟩ [] ⟨8, [1], 3⟩ [⟨9, [2], 7⟩] 0 5
    (by intro t ht; simp at ht) (by decide) rfl (by decide)
  simpa [queriesOf] using h

/-- C9 counterexample: an unhandled HEX record type, a wrong chip id, a
non-Success status and a CRC mismatch all make the corresponding code abort
via a failed assertion (modelled as `panicked`), which is distinct from
returning an `Err` value — refuting the claim that these failures are
reported via error results. -/
theorem c9_counterexample :
    firmwareImageNew [.startLinearAddress] = .panicked ∧
    chipIdAssert 0x12345678 = .panicked ∧
    statusAssert .flashFail = .panicked ∧
    crcAssert 1 2 = .panicked ∧
    (RunResult.panicked : RunResult ImgError (List Segment)) ≠
      .err .endOfFileInMiddleOfFile := by
  refine ⟨by decide, by decide, by decide, by decide, by decide⟩

/-- C9 amended: protocol-level and structural failures (data after EOF,
SendData bound violations) are returned as `Err` values, but a chip id
other than 0x20028000, a status other than Success, a CRC mismatch in
`write_segment`, and an unhandled HEX record type abort via `assert!`
(panic) instead of returning `Err`. -/
theorem c9_error_vs_panic :
    firmwareImageNew [.data 0 [1], .endOfFile, .data 0 [2]] =
      .err .endOfFileInMiddleOfFile ∧
    sendDataSerialize [] = .error .minPayloadNotMet ∧
    (∀ v, v ≠ CC1310_CHIP_ID → chipIdAssert v = .panicked) ∧
    (∀ s, s ≠ StatusValue.success → statusAssert s = .panicked) ∧
    (∀ a b : Nat, a ≠ b → crcAssert a b = .panicked) ∧
    firmwareImageNew [.startLinearAddress] = .panicked := by
  refine ⟨by decide, rfl, ?_, ?_, ?_, by decide⟩
  · intro v hv
    unfold chipIdAssert
    rw [if_neg hv]
  · intro s hs
    unfold statusAssert
    rw [if_neg hs]
  · intro a b hab
    unfold crcAssert
    rw [if_neg hab]

/-- Witness for C9 at chip id 0, status Default and CRC pair (3, 4). -/
theorem c9_witness :
    chipIdAssert 0 = .panicked ∧ statusAssert .default = .panicked ∧
    crcAssert 3 4 = .panicked :=
  ⟨c9_error_vs_panic.2.2.1 0 (by decide),
   c9_error_vs_panic.2.2.2.1 .default (by decide),
   c9_error_vs_panic.2.2.2.2.1 3 4 (by decide)⟩


/-- Witness for C7 at the concrete two-segment record list. -/
theorem c7_witness :
    firmwareImageNew [.data 0 [1], .data 16 [2], .endOfFile, .endOfFile] =
      mapSegments List.reverse
        (fromRecordsLoopFileOrder [.data 0 [1], .data 16 [2], .endOfFile, .endOfFile]
          0 ⟨0, [], 0⟩ false []) :=
  c7_segments_reverse_file_order.1 [.data 0 [1], .data 16 [2], .endOfFile, .endOfFile]

end Cc13xx
